import Mathlib

/-!
# Verification of `neutron/agent/resource_cache.py` (`RemoteResourceCache`)

A shallow embedding of the remote-resource cache: a per-type mapping from
resource id to the latest accepted resource snapshot, a per-type set of
tombstoned (deleted) ids, staleness detection by revision number, changed-field
diffing, and the local notifications emitted by `record_resource_update` /
`record_resource_delete`.

Python dictionaries are embedded as association lists with unique keys
(uniqueness holds by construction for every dict the code builds); Python
`set`s as duplicate-free lists.  The two exception kinds the code can raise on
a type that is not tracked — the explicit
`RuntimeError("Resource cache not tracking %s")` from `_type_cache`, and the
`KeyError` from the direct subscript `self._deleted_ids_by_type[rtype]` — are
embedded as an `Except` error channel.  `registry.notify` calls are embedded
as notification values returned next to the new cache state.
-/

deriving instance DecidableEq for Except

/-- The failures a cache operation can raise.
`notTracking` is the `RuntimeError("Resource cache not tracking %s")` raised by
`_type_cache`; `keyError` is the Python `KeyError` raised by a direct dict
subscript such as `self._deleted_ids_by_type[rtype]`. -/
inductive Err : Type
  | notTracking : Err
  | keyError : Err
deriving DecidableEq, Repr

/-- A Python value stored in a resource field: a string, an integer, or
`None`. -/
inductive Value : Type
  | vStr : String → Value
  | vInt : Int → Value
  | vNone : Value
deriving DecidableEq, Repr

/-- Lookup in a Python dict (association list, first matching key). -/
def dget {α : Type} : List (String × α) → String → Option α
  | [], _ => none
  | (k, v) :: rest, key => if k = key then some v else dget rest key

/-- Assignment `d[key] = v` on a Python dict: replace the binding if the key is present,
append it otherwise. -/
def dinsert {α : Type} : List (String × α) → String → α → List (String × α)
  | [], key, v => [(key, v)]
  | (k, w) :: rest, key, v =>
      if k = key then (key, v) :: rest else (k, w) :: dinsert rest key v

/-- Effect of `d.pop(key, None)` on the dict: remove the binding for `key`. -/
def dpop {α : Type} (d : List (String × α)) (key : String) : List (String × α) :=
  d.filter (fun kv => kv.1 ≠ key)

/-- Python `d.values()`. -/
def dvalues {α : Type} (d : List (String × α)) : List α :=
  d.map Prod.snd

/-- A Python dict subscript `d[key]`: raises `KeyError` when the key is
absent. -/
def dgetE {α : Type} (d : List (String × α)) (key : String) : Except Err α :=
  match dget d key with
  | some v => .ok v
  | none => .error .keyError

/-- Python `d.get(key)` where the caller compares the result with `==`: a missing key
yields the Python value `None`. -/
def pyGet (d : List (String × Value)) (key : String) : Value :=
  (dget d key).getD Value.vNone

/-- Python `s.add(x)` on a set (duplicate-free list). -/
def sadd (s : List String) (x : String) : List String :=
  if x ∈ s then s else s ++ [x]

/-- Python `s.discard(x)` on a set of field names. -/
def sdiscard (s : List String) (x : String) : List String :=
  s.filter (fun y => y ≠ x)

/-- An OVO resource snapshot: an `id`, a `revision_number`, an `updated_at`
timestamp and the remaining (type-specific) fields.  `to_dict` exposes all of
them as a field-name-to-value dict. -/
structure Resource : Type where
  id : String
  revision_number : Int
  updated_at : Value
  extra : List (String × Value)
deriving DecidableEq, Repr

/-- Python `resource.to_dict()`: every field of the resource as a dict. -/
def Resource.to_dict (r : Resource) : List (String × Value) :=
  ("id", Value.vStr r.id) :: ("revision_number", Value.vInt r.revision_number) ::
    ("updated_at", r.updated_at) :: r.extra

/-- Python `getattr(o, k)` for a field named `k` of the resource. -/
def Resource.getAttr (r : Resource) (k : String) : Option Value :=
  dget r.to_dict k

/-- The payload of the `registry.notify(rtype, events.AFTER_UPDATE, ...)` call
in `record_resource_update`. -/
structure UpdateNotification : Type where
  rtype : String
  changed_fields : List String
  existing : Option Resource
  updated : Resource
  resource_id : String
deriving DecidableEq, Repr

/-- The payload of the `registry.notify(rtype, events.AFTER_DELETE, ...)` call
in `record_resource_delete`. -/
structure DeleteNotification : Type where
  rtype : String
  existing : Option Resource
  resource_id : String
deriving DecidableEq, Repr

/-- The state of a `RemoteResourceCache`: the tracked types, the per-type live
mapping `_cache_by_type_and_id`, and the per-type tombstone sets
`_deleted_ids_by_type`. -/
structure Cache : Type where
  resource_types : List String
  cache_by_type_and_id : List (String × List (String × Resource))
  deleted_ids_by_type : List (String × List String)
deriving DecidableEq, Repr

/-- Constructor `RemoteResourceCache.__init__`: both outer dicts map every tracked type to
an empty dict / empty set. -/
def Cache.init (resource_types : List String) : Cache :=
  { resource_types := resource_types
    cache_by_type_and_id := resource_types.map (fun rt => (rt, []))
    deleted_ids_by_type := resource_types.map (fun rt => (rt, [])) }

/-- Method `_type_cache`: raises `RuntimeError` when `rtype` is not tracked, else
returns the live dict for `rtype` (the subscript on `_cache_by_type_and_id`
would raise `KeyError` if the key were missing, which never happens for a
cache built by `__init__`). -/
def Cache.typeCache (c : Cache) (rtype : String) :
    Except Err (List (String × Resource)) :=
  if rtype ∈ c.resource_types then dgetE c.cache_by_type_and_id rtype
  else .error .notTracking

/-- Method `get_resource_by_id`: returns `none` if the id does not exist. -/
def Cache.get_resource_by_id (c : Cache) (rtype : String) (obj_id : String) :
    Except Err (Option Resource) := do
  let tc ← c.typeCache rtype
  return dget tc obj_id

/-- Method `match_resources_with_func`: all live resources of `rtype` satisfying
`matcher`. -/
def Cache.match_resources_with_func (c : Cache) (rtype : String)
    (matcher : Resource → Bool) : Except Err (List Resource) := do
  let tc ← c.typeCache rtype
  return (dvalues tc).filter matcher

/-- The matcher built by `get_resources`:
`all(v == getattr(o, k) for k, v in filters.items())`. -/
def filtersMatch (filters : List (String × Value)) (o : Resource) : Bool :=
  filters.all (fun kv => o.getAttr kv.1 = some kv.2)

/-- Method `get_resources`: find resources matching every `key: value` of the filters
dict. -/
def Cache.get_resources (c : Cache) (rtype : String)
    (filters : List (String × Value)) : Except Err (List Resource) :=
  c.match_resources_with_func rtype (filtersMatch filters)

/-- Method `_is_stale`: an update is safe to ignore if its id has already been
deleted, or if a live copy exists with a strictly higher revision number
(`existing and existing.revision_number > resource.revision_number`). -/
def Cache.isStale (c : Cache) (rtype : String) (resource : Resource) :
    Except Err Bool := do
  let deleted ← dgetE c.deleted_ids_by_type rtype
  if resource.id ∈ deleted then
    return true
  let tc ← c.typeCache rtype
  match dget tc resource.id with
  | some existing => return existing.revision_number > resource.revision_number
  | none => return false

/-- Method `_get_changed_fields`: starts with all keys of `new.to_dict()`, discards
each key of the old dict whose value compares `==` to `new.get(k)` (Python's
`dict.get` yields `None` on a missing key), then discards `revision_number`
and `updated_at`. -/
def getChangedFields (old : Option Resource) (new : Resource) : List String :=
  let newd := new.to_dict
  let changed0 := (newd.map Prod.fst).dedup
  let changed1 :=
    match old with
    | none => changed0
    | some o =>
        o.to_dict.foldl
          (fun ch kv => if kv.2 = pyGet newd kv.1 then sdiscard ch kv.1 else ch)
          changed0
  sdiscard (sdiscard changed1 "revision_number") "updated_at"

/-- Method `record_resource_update`: discard stale updates; otherwise replace the
live entry, and when some field beyond `revision_number`/`updated_at`
changed, emit an `AFTER_UPDATE` notification.  (The `context` argument is
only forwarded into the notification and is omitted here.) -/
def Cache.record_resource_update (c : Cache) (rtype : String)
    (resource : Resource) : Except Err (Cache × Option UpdateNotification) := do
  let stale ← c.isStale rtype resource
  if stale then
    return (c, none)
  let tc ← c.typeCache rtype
  let existing := dget tc resource.id
  let c := { c with
    cache_by_type_and_id :=
      dinsert c.cache_by_type_and_id rtype (dinsert tc resource.id resource) }
  let changed_fields := getChangedFields existing resource
  if changed_fields.isEmpty then
    return (c, none)
  return (c, some { rtype := rtype, changed_fields := changed_fields,
                    existing := existing, updated := resource,
                    resource_id := resource.id })

/-- Method `record_resource_delete`: unconditionally tombstone the id, pop any live
entry, and emit an `AFTER_DELETE` notification carrying the popped entry.
The tombstone is added before the live dict is touched, as in the source. -/
def Cache.record_resource_delete (c : Cache) (rtype : String)
    (resource_id : String) : Except Err (Cache × DeleteNotification) := do
  let deleted ← dgetE c.deleted_ids_by_type rtype
  let c := { c with
    deleted_ids_by_type :=
      dinsert c.deleted_ids_by_type rtype (sadd deleted resource_id) }
  let tc ← c.typeCache rtype
  let existing := dget tc resource_id
  let c := { c with
    cache_by_type_and_id :=
      dinsert c.cache_by_type_and_id rtype (dpop tc resource_id) }
  return (c, { rtype := rtype, existing := existing, resource_id := resource_id })

/-- One insertion of `bulk_flood_cache`'s inner loop:
`self._type_cache(rtype)[resource.id] = resource` — an unconditional
insert/replace that never consults the tombstone set. -/
def Cache.bulk_put (c : Cache) (rtype : String) (resource : Resource) :
    Except Err Cache := do
  let tc ← c.typeCache rtype
  return { c with
    cache_by_type_and_id :=
      dinsert c.cache_by_type_and_id rtype (dinsert tc resource.id resource) }

/-- The live entry stored for `(rtype, id)`, read off the raw state. -/
def Cache.getAt (c : Cache) (rtype : String) (obj_id : String) : Option Resource :=
  (dget c.cache_by_type_and_id rtype).bind (fun tc => dget tc obj_id)

/-- Apply a sequence of `record_resource_update` calls; a call that raises
leaves the state unchanged (in the source every raise in
`record_resource_update` happens before any mutation). -/
def Cache.applyUpdates (c : Cache) : List (String × Resource) → Cache
  | [] => c
  | (rtype, r) :: rest =>
      (match c.record_resource_update rtype r with
        | .ok (c', _) => c'
        | .error _ => c).applyUpdates rest

/-- The changed-field set as the spec words it (§4.2 step 3): the set of field
names whose values differ between the existing entry (if any) and the incoming
resource, excluding `revision_number` and `updated_at`.  Stated over the field
dicts of the two resources; with no existing entry every field of the incoming
resource counts as changed. -/
def specChangedFields (old : Option Resource) (new : Resource) : List String :=
  match old with
  | none =>
      sdiscard (sdiscard ((new.to_dict.map Prod.fst).dedup) "revision_number")
        "updated_at"
  | some o =>
      sdiscard (sdiscard
          (((o.to_dict.map Prod.fst ++ new.to_dict.map Prod.fst).dedup).filter
            (fun k => dget o.to_dict k ≠ dget new.to_dict k))
          "revision_number")
        "updated_at"

/-- Pair `(t, i)` is tombstoned and not live: `i` is in `t`'s tombstone set and
absent from `t`'s live mapping. -/
def Cache.Dead (c : Cache) (t i : String) : Prop :=
  (∃ s, dget c.deleted_ids_by_type t = some s ∧ i ∈ s) ∧
  ∀ tc, dget c.cache_by_type_and_id t = some tc → dget tc i = none

/-- No id in a type's tombstone set is simultaneously in that type's live
mapping. -/
def Cache.TombLiveDisjoint (c : Cache) : Prop :=
  ∀ t s tc i, dget c.deleted_ids_by_type t = some s →
    dget c.cache_by_type_and_id t = some tc → i ∈ s → dget tc i = none

/-- Both outer dicts have exactly the tracked types as keys (as established by
`__init__` and preserved by every operation). -/
def Cache.TrackedKeys (c : Cache) : Prop :=
  (∀ t, (dget c.cache_by_type_and_id t).isSome ↔ t ∈ c.resource_types) ∧
  (∀ t, (dget c.deleted_ids_by_type t).isSome ↔ t ∈ c.resource_types)

/-- States reachable from `__init__` by any sequence of the cache's mutating
operations: bulk-load inserts, `record_resource_update` and
`record_resource_delete`. -/
inductive Reachable : Cache → Prop
  | init (types : List String) : Reachable (Cache.init types)
  | bulk (c : Cache) (t : String) (r : Resource) (c' : Cache) :
      Reachable c → c.bulk_put t r = .ok c' → Reachable c'
  | update (c : Cache) (t : String) (r : Resource) (c' : Cache)
      (out : Option UpdateNotification) :
      Reachable c → c.record_resource_update t r = .ok (c', out) → Reachable c'
  | delete (c : Cache) (t i : String) (c' : Cache) (n : DeleteNotification) :
      Reachable c → c.record_resource_delete t i = .ok (c', n) → Reachable c'

/-- States reachable from `__init__` using only the push-driven operations
`record_resource_update` and `record_resource_delete` (no bulk-load insert). -/
inductive ReachableNoBulk : Cache → Prop
  | init (types : List String) : ReachableNoBulk (Cache.init types)
  | update (c : Cache) (t : String) (r : Resource) (c' : Cache)
      (out : Option UpdateNotification) :
      ReachableNoBulk c → c.record_resource_update t r = .ok (c', out) →
      ReachableNoBulk c'
  | delete (c : Cache) (t i : String) (c' : Cache) (n : DeleteNotification) :
      ReachableNoBulk c → c.record_resource_delete t i = .ok (c', n) →
      ReachableNoBulk c'

/-- A concrete resource with id `"a"`, the given revision and a single
type-specific field `name`. -/
def scenR (rev : Int) (nm : String) : Resource :=
  { id := "a", revision_number := rev, updated_at := Value.vNone,
    extra := [("name", Value.vStr nm)] }

/-- A fresh cache tracking only `"port"`. -/
def scenC0 : Cache := Cache.init ["port"]

/-- State `scenC0` after accepting the revision-5 resource. -/
def scenC1 : Cache :=
  { resource_types := ["port"]
    cache_by_type_and_id := [("port", [("a", scenR 5 "x")])]
    deleted_ids_by_type := [("port", [])] }

/-- State `scenC1` after accepting the revision-7 resource. -/
def scenC2 : Cache :=
  { resource_types := ["port"]
    cache_by_type_and_id := [("port", [("a", scenR 7 "y")])]
    deleted_ids_by_type := [("port", [])] }

/-- State `scenC1` after `record_resource_delete("port", "a")` (also what
`record_resource_delete("port", "a")` on a fresh cache produces). -/
def cDel : Cache :=
  { resource_types := ["port"]
    cache_by_type_and_id := [("port", [])]
    deleted_ids_by_type := [("port", ["a"])] }

/-- State `cDel` after the unconditional bulk-load insert of a resource with the
tombstoned id `"a"`. -/
def cBad : Cache :=
  { resource_types := ["port"]
    cache_by_type_and_id := [("port", [("a", scenR 1 "x")])]
    deleted_ids_by_type := [("port", ["a"])] }

/-- The spec's changed-field example: existing
`{id:"a", revision_number:1, name:"x", status:"up"}`. -/
def exOld : Resource :=
  { id := "a", revision_number := 1, updated_at := Value.vNone,
    extra := [("name", Value.vStr "x"), ("status", Value.vStr "up")] }

/-- The spec's changed-field example: incoming
`{id:"a", revision_number:2, name:"x", status:"down"}`. -/
def exNew : Resource :=
  { id := "a", revision_number := 2, updated_at := Value.vNone,
    extra := [("name", Value.vStr "x"), ("status", Value.vStr "down")] }

/-- A resource with a `zone` field, for the find-semantics example. -/
def zoneR (i zone : String) : Resource :=
  { id := i, revision_number := 1, updated_at := Value.vNone,
    extra := [("zone", Value.vStr zone)] }

/-- A cache holding three resources with `zone` fields `"A"`, `"A"`, `"B"`. -/
def zoneCache : Cache :=
  { resource_types := ["net"]
    cache_by_type_and_id :=
      [("net", [("r1", zoneR "r1" "A"), ("r2", zoneR "r2" "A"),
                ("r3", zoneR "r3" "B")])]
    deleted_ids_by_type := [("net", [])] }

/-- State `scenC1` after the semantically-identical revision-9 update: the stored
entry is replaced, nothing else changes. -/
def scenC1noop : Cache :=
  { resource_types := ["port"]
    cache_by_type_and_id := [("port", [("a", scenR 9 "x")])]
    deleted_ids_by_type := [("port", [])] }

/-! ## Lemmas about the embedded Python dict and set operations -/

theorem dget_dinsert_self {α : Type} (d : List (String × α)) (k : String) (v : α) :
    dget (dinsert d k v) k = some v := by
  induction d with
  | nil => simp [dget, dinsert]
  | cons kv rest ih =>
      by_cases h : kv.1 = k
      · simp [dinsert, h, dget]
      · simp [dinsert, h, dget, ih]

theorem dget_dinsert_ne {α : Type} (d : List (String × α)) {k k' : String} (v : α)
    (h : k' ≠ k) : dget (dinsert d k v) k' = dget d k' := by
  have hkk : k ≠ k' := Ne.symm h
  induction d with
  | nil => simp [dget, dinsert, hkk]
  | cons kv rest ih =>
      by_cases hk : kv.1 = k
      · simp [dinsert, hk, dget, hkk]
      · by_cases hk' : kv.1 = k'
        · simp [dinsert, hk, dget, hk', h]
        · simp [dinsert, hk, dget, hk', ih]

theorem dinsert_eq_self {α : Type} {d : List (String × α)} {k : String} {v : α}
    (h : dget d k = some v) : dinsert d k v = d := by
  induction d with
  | nil => simp [dget] at h
  | cons kv rest ih =>
      by_cases hk : kv.1 = k
      · have h2 : kv.2 = v := by simpa [dget, hk] using h
        have h3 : dinsert (kv :: rest) k v = (k, v) :: rest := by
          simp [dinsert, hk]
        rw [h3, ← hk, ← h2]
      · simp [dget, hk] at h
        simp [dinsert, hk, ih h]

theorem dpop_cons_pos {α : Type} {kv : String × α} (rest : List (String × α))
    {k : String} (hk : kv.1 = k) : dpop (kv :: rest) k = dpop rest k := by
  simp [dpop, List.filter_cons, hk]

theorem dpop_cons_neg {α : Type} {kv : String × α} (rest : List (String × α))
    {k : String} (hk : kv.1 ≠ k) : dpop (kv :: rest) k = kv :: dpop rest k := by
  simp [dpop, List.filter_cons, hk]

theorem dget_dpop_self {α : Type} (d : List (String × α)) (k : String) :
    dget (dpop d k) k = none := by
  induction d with
  | nil => rfl
  | cons kv rest ih =>
      by_cases hk : kv.1 = k
      · rw [dpop_cons_pos rest hk]
        exact ih
      · rw [dpop_cons_neg rest hk]
        simpa [dget, hk] using ih

theorem dget_dpop_ne {α : Type} (d : List (String × α)) {k k' : String}
    (h : k' ≠ k) : dget (dpop d k) k' = dget d k' := by
  induction d with
  | nil => rfl
  | cons kv rest ih =>
      by_cases hk : kv.1 = k
      · have hkv : kv.1 ≠ k' := by
          intro he
          exact h (he.symm.trans hk)
        rw [dpop_cons_pos rest hk, ih]
        simp [dget, hkv]
      · rw [dpop_cons_neg rest hk]
        by_cases hk' : kv.1 = k'
        · simp [dget, hk']
        · simp [dget, hk', ih]

theorem dpop_eq_self {α : Type} {d : List (String × α)} {k : String}
    (h : dget d k = none) : dpop d k = d := by
  induction d with
  | nil => rfl
  | cons kv rest ih =>
      by_cases hk : kv.1 = k
      · simp [dget, hk] at h
      · simp only [dget, hk, if_false, if_neg hk] at h
        rw [dpop_cons_neg rest hk, ih h]

theorem dget_eq_none_iff {α : Type} {d : List (String × α)} {k : String} :
    dget d k = none ↔ ∀ kv ∈ d, kv.1 ≠ k := by
  induction d with
  | nil => simp [dget]
  | cons kv rest ih =>
      by_cases hk : kv.1 = k
      · simp [dget, hk]
      · simp [dget, hk, ih]

theorem mem_of_dget_eq_some {α : Type} {d : List (String × α)} {k : String} {v : α}
    (h : dget d k = some v) : (k, v) ∈ d := by
  induction d with
  | nil => simp [dget] at h
  | cons kv rest ih =>
      by_cases hk : kv.1 = k
      · simp [dget, hk] at h
        have hkv : (k, v) = kv := by rw [← hk, ← h]
        rw [hkv]
        exact List.mem_cons_self _ _
      · simp [dget, hk] at h
        exact List.mem_cons.mpr (Or.inr (ih h))

theorem dget_eq_some_of_mem_nodup {α : Type} {d : List (String × α)} {k : String}
    {v : α} (hnd : (d.map Prod.fst).Nodup) (h : (k, v) ∈ d) : dget d k = some v := by
  induction d with
  | nil => simp at h
  | cons kv rest ih =>
      simp only [List.map_cons, List.nodup_cons] at hnd
      rcases List.mem_cons.mp h with h1 | h1
      · rw [← h1]
        simp [dget]
      · have hk : kv.1 ≠ k := by
          intro he
          exact hnd.1 (he ▸ (List.mem_map.mpr ⟨(k, v), h1, rfl⟩))
        simp [dget, hk]
        exact ih hnd.2 h1

theorem dget_isSome_iff {α : Type} {d : List (String × α)} {k : String} :
    (dget d k).isSome ↔ k ∈ d.map Prod.fst := by
  induction d with
  | nil => simp [dget]
  | cons kv rest ih =>
      by_cases hk : kv.1 = k
      · simp [dget, hk]
      · have hk2 : ¬k = kv.1 := fun he => hk he.symm
        simp [dget, hk, ih, hk2]

theorem isSome_dget_dinsert {α : Type} (d : List (String × α)) (k k' : String)
    (v : α) : (dget (dinsert d k v) k').isSome ↔ (dget d k').isSome ∨ k' = k := by
  by_cases h : k' = k
  · simp [h, dget_dinsert_self]
  · simp [dget_dinsert_ne d v h, h]

theorem dget_map_const {α : Type} (l : List String) (a : α) (t : String) :
    dget (l.map (fun x => (x, a))) t = if t ∈ l then some a else none := by
  induction l with
  | nil => simp [dget]
  | cons x rest ih =>
      by_cases h : x = t
      · simp [dget, h]
      · have h2 : ¬t = x := fun he => h he.symm
        simp [dget, h, ih, h2]

theorem mem_sadd {s : List String} {x y : String} :
    x ∈ sadd s y ↔ x ∈ s ∨ x = y := by
  by_cases h : y ∈ s
  · simp only [sadd, if_pos h]
    constructor
    · exact Or.inl
    · rintro (hx | rfl) <;> [exact hx; exact h]
  · simp [sadd, if_neg h]

theorem sadd_eq_self {s : List String} {x : String} (h : x ∈ s) : sadd s x = s := by
  simp [sadd, h]

theorem mem_sdiscard {s : List String} {x y : String} :
    x ∈ sdiscard s y ↔ x ∈ s ∧ x ≠ y := by
  simp [sdiscard]

theorem mem_dvalues {α : Type} {d : List (String × α)} {v : α} :
    v ∈ dvalues d ↔ ∃ k, (k, v) ∈ d := by
  constructor
  · intro h
    rcases List.mem_map.mp h with ⟨kv, hmem, hv⟩
    exact ⟨kv.1, by rwa [show (kv.1, v) = kv from by rw [← hv]]⟩
  · rintro ⟨k, hk⟩
    exact List.mem_map.mpr ⟨(k, v), hk, rfl⟩

theorem dgetE_ok_iff {α : Type} {d : List (String × α)} {k : String} {v : α} :
    dgetE d k = .ok v ↔ dget d k = some v := by
  cases h : dget d k <;> simp [dgetE, h]

theorem typeCache_ok_iff {c : Cache} {t : String} {tc : List (String × Resource)} :
    c.typeCache t = .ok tc ↔ t ∈ c.resource_types ∧ dget c.cache_by_type_and_id t = some tc := by
  by_cases h : t ∈ c.resource_types
  · simp [Cache.typeCache, h, dgetE_ok_iff]
  · simp [Cache.typeCache, h]

theorem isStale_run (c : Cache) (t : String) (r : Resource) :
    c.isStale t r =
      match dget c.deleted_ids_by_type t with
      | none => .error .keyError
      | some deleted =>
          if r.id ∈ deleted then .ok true
          else
            match c.typeCache t with
            | .error e => .error e
            | .ok tc =>
                match dget tc r.id with
                | some existing =>
                    .ok (decide (existing.revision_number > r.revision_number))
                | none => .ok false := by
  unfold Cache.isStale dgetE
  cases dget c.deleted_ids_by_type t with
  | none => rfl
  | some deleted =>
      by_cases h : r.id ∈ deleted
      · simp [h, bind, Except.bind, pure, Except.pure]
      · simp only [h, bind, Except.bind, if_false, if_neg h]
        cases c.typeCache t with
        | error e => rfl
        | ok tc =>
            cases dget tc r.id with
            | none => rfl
            | some existing => rfl

theorem update_run (c : Cache) (t : String) (r : Resource) :
    c.record_resource_update t r =
      match c.isStale t r with
      | .error e => .error e
      | .ok true => .ok (c, none)
      | .ok false =>
          match c.typeCache t with
          | .error e => .error e
          | .ok tc =>
              if (getChangedFields (dget tc r.id) r).isEmpty then
                .ok ({ c with cache_by_type_and_id :=
                         dinsert c.cache_by_type_and_id t (dinsert tc r.id r) },
                     none)
              else
                .ok ({ c with cache_by_type_and_id :=
                         dinsert c.cache_by_type_and_id t (dinsert tc r.id r) },
                     some { rtype := t,
                            changed_fields := getChangedFields (dget tc r.id) r,
                            existing := dget tc r.id, updated := r,
                            resource_id := r.id }) := by
  unfold Cache.record_resource_update
  cases c.isStale t r with
  | error e => rfl
  | ok stale =>
      cases stale with
      | true => simp [bind, Except.bind, pure, Except.pure]
      | false =>
          simp only [bind, Except.bind, pure, Except.pure, Bool.false_eq_true,
            if_false]
          cases c.typeCache t with
          | error e => rfl
          | ok tc =>
              by_cases h : (getChangedFields (dget tc r.id) r).isEmpty
              · simp [h]
              · simp [h]

theorem delete_run (c : Cache) (t : String) (i : String) :
    c.record_resource_delete t i =
      match dget c.deleted_ids_by_type t with
      | none => .error .keyError
      | some deleted =>
          match c.typeCache t with
          | .error e => .error e
          | .ok tc =>
              .ok ({ c with
                       deleted_ids_by_type :=
                         dinsert c.deleted_ids_by_type t (sadd deleted i),
                       cache_by_type_and_id :=
                         dinsert c.cache_by_type_and_id t (dpop tc i) },
                   { rtype := t, existing := dget tc i, resource_id := i }) := by
  unfold Cache.record_resource_delete dgetE
  cases dget c.deleted_ids_by_type t with
  | none => rfl
  | some deleted =>
      simp only [bind, Except.bind]
      cases h : Cache.typeCache { c with
          deleted_ids_by_type :=
            dinsert c.deleted_ids_by_type t (sadd deleted i) } t with
      | error e =>
          have h2 : c.typeCache t = .error e := h
          rw [h2]
      | ok tc =>
          have h2 : c.typeCache t = .ok tc := h
          rw [h2]
          rfl

theorem bulk_put_run (c : Cache) (t : String) (r : Resource) :
    c.bulk_put t r =
      match c.typeCache t with
      | .error e => .error e
      | .ok tc =>
          .ok { c with
            cache_by_type_and_id :=
              dinsert c.cache_by_type_and_id t (dinsert tc r.id r) } := by
  unfold Cache.bulk_put
  cases c.typeCache t with
  | error e => rfl
  | ok tc => rfl

theorem get_run (c : Cache) (t : String) (i : String) :
    c.get_resource_by_id t i =
      match c.typeCache t with
      | .error e => .error e
      | .ok tc => .ok (dget tc i) := by
  unfold Cache.get_resource_by_id
  cases c.typeCache t with
  | error e => rfl
  | ok tc => rfl

theorem match_run (c : Cache) (t : String) (m : Resource → Bool) :
    c.match_resources_with_func t m =
      match c.typeCache t with
      | .error e => .error e
      | .ok tc => .ok ((dvalues tc).filter m) := by
  unfold Cache.match_resources_with_func
  cases c.typeCache t with
  | error e => rfl
  | ok tc => rfl

theorem isStale_false_inv {c : Cache} {t : String} {r : Resource}
    (h : c.isStale t r = .ok false) :
    ∃ s, dget c.deleted_ids_by_type t = some s ∧ r.id ∉ s ∧
      ∃ tc, c.typeCache t = .ok tc ∧
        ∀ e, dget tc r.id = some e → e.revision_number ≤ r.revision_number := by
  rw [isStale_run] at h
  split at h
  · exact absurd h (by simp)
  next s heq =>
    split at h
    · exact absurd h (by simp)
    next hm =>
      refine ⟨s, heq, hm, ?_⟩
      split at h
      · exact absurd h (by simp)
      next tc htc =>
        refine ⟨tc, htc, ?_⟩
        intro e he
        rw [he] at h
        simp only [Except.ok.injEq, decide_eq_false_iff_not, not_lt] at h
        exact h

theorem update_ok_inv {c : Cache} {t : String} {r : Resource} {c' : Cache}
    {out : Option UpdateNotification}
    (h : c.record_resource_update t r = .ok (c', out)) :
    (c.isStale t r = .ok true ∧ c' = c ∧ out = none) ∨
    (c.isStale t r = .ok false ∧ ∃ tc, c.typeCache t = .ok tc ∧
      c' = { c with cache_by_type_and_id :=
               dinsert c.cache_by_type_and_id t (dinsert tc r.id r) }) := by
  rw [update_run] at h
  split at h
  · exact absurd h (by simp)
  next heq =>
    simp only [Except.ok.injEq, Prod.mk.injEq] at h
    exact Or.inl ⟨heq, h.1.symm, h.2.symm⟩
  next heq =>
    split at h
    · exact absurd h (by simp)
    next tc htc =>
      split at h
      · simp only [Except.ok.injEq, Prod.mk.injEq] at h
        exact Or.inr ⟨heq, tc, htc, h.1.symm⟩
      · simp only [Except.ok.injEq, Prod.mk.injEq] at h
        exact Or.inr ⟨heq, tc, htc, h.1.symm⟩

theorem delete_ok_inv {c : Cache} {t i : String} {c' : Cache}
    {n : DeleteNotification}
    (h : c.record_resource_delete t i = .ok (c', n)) :
    ∃ s tc, dget c.deleted_ids_by_type t = some s ∧
      t ∈ c.resource_types ∧ dget c.cache_by_type_and_id t = some tc ∧
      c' = { c with
        deleted_ids_by_type := dinsert c.deleted_ids_by_type t (sadd s i),
        cache_by_type_and_id := dinsert c.cache_by_type_and_id t (dpop tc i) } ∧
      n = { rtype := t, existing := dget tc i, resource_id := i } := by
  rw [delete_run] at h
  split at h
  · exact absurd h (by simp)
  next s heq =>
    split at h
    · exact absurd h (by simp)
    next tc htc =>
      rw [typeCache_ok_iff] at htc
      simp only [Except.ok.injEq, Prod.mk.injEq] at h
      exact ⟨s, tc, heq, htc.1, htc.2, h.1.symm, h.2.symm⟩

theorem bulk_put_ok_inv {c : Cache} {t : String} {r : Resource} {c' : Cache}
    (h : c.bulk_put t r = .ok c') :
    ∃ tc, t ∈ c.resource_types ∧ dget c.cache_by_type_and_id t = some tc ∧
      c' = { c with cache_by_type_and_id :=
               dinsert c.cache_by_type_and_id t (dinsert tc r.id r) } := by
  rw [bulk_put_run] at h
  split at h
  · exact absurd h (by simp)
  next tc htc =>
    rw [typeCache_ok_iff] at htc
    simp only [Except.ok.injEq] at h
    exact ⟨tc, htc.1, htc.2, h.symm⟩

theorem mem_foldl_sdiscard (newd : List (String × Value))
    (l : List (String × Value)) (s : List String) (k : String) :
    k ∈ l.foldl
        (fun ch kv => if kv.2 = pyGet newd kv.1 then sdiscard ch kv.1 else ch) s ↔
      k ∈ s ∧ ∀ kv ∈ l, kv.2 = pyGet newd kv.1 → kv.1 ≠ k := by
  induction l generalizing s with
  | nil => simp
  | cons kv rest ih =>
      simp only [List.foldl_cons, List.mem_cons, ih]
      by_cases h : kv.2 = pyGet newd kv.1
      · simp only [if_pos h, mem_sdiscard]
        constructor
        · rintro ⟨⟨hs, hne⟩, hrest⟩
          refine ⟨hs, ?_⟩
          intro kv' hkv'
          rcases hkv' with hkv' | hkv'
          · intro _
            rw [hkv']
            exact fun he => hne he.symm
          · exact hrest kv' hkv'
        · rintro ⟨hs, hall⟩
          refine ⟨⟨hs, ?_⟩, ?_⟩
          · intro he
            exact hall kv (Or.inl rfl) h he.symm
          · intro kv' hkv'
            exact hall kv' (Or.inr hkv')
      · simp only [if_neg h]
        constructor
        · rintro ⟨hs, hrest⟩
          refine ⟨hs, ?_⟩
          intro kv' hkv'
          rcases hkv' with hkv' | hkv'
          · intro hc
            rw [hkv'] at hc
            exact absurd hc h
          · exact hrest kv' hkv'
        · rintro ⟨hs, hall⟩
          exact ⟨hs, fun kv' hkv' => hall kv' (Or.inr hkv')⟩

theorem mem_getChangedFields_none {r : Resource} {k : String} :
    k ∈ getChangedFields none r ↔
      k ∈ r.to_dict.map Prod.fst ∧ k ≠ "revision_number" ∧ k ≠ "updated_at" := by
  simp [getChangedFields, mem_sdiscard, List.mem_dedup, and_assoc]

theorem mem_getChangedFields_some {e r : Resource} {k : String} :
    k ∈ getChangedFields (some e) r ↔
      k ∈ r.to_dict.map Prod.fst ∧
      (∀ kv ∈ e.to_dict, kv.2 = pyGet r.to_dict kv.1 → kv.1 ≠ k) ∧
      k ≠ "revision_number" ∧ k ≠ "updated_at" := by
  simp [getChangedFields, mem_sdiscard, mem_foldl_sdiscard, List.mem_dedup,
    and_assoc]

theorem mem_specChangedFields_some {o r : Resource} {k : String} :
    k ∈ specChangedFields (some o) r ↔
      (k ∈ o.to_dict.map Prod.fst ∨ k ∈ r.to_dict.map Prod.fst) ∧
      dget o.to_dict k ≠ dget r.to_dict k ∧
      k ≠ "revision_number" ∧ k ≠ "updated_at" := by
  simp [specChangedFields, mem_sdiscard, List.mem_filter, List.mem_dedup,
    List.mem_append, and_assoc]

theorem pyGet_eq_of_dget {d : List (String × Value)} {k : String} {v : Value}
    (h : dget d k = some v) : pyGet d k = v := by
  simp [pyGet, h]

theorem dget_to_dict_extra {r : Resource} {k : String}
    (h1 : k ≠ "id") (h2 : k ≠ "revision_number") (h3 : k ≠ "updated_at") :
    dget r.to_dict k = dget r.extra k := by
  have g1 : ¬("id" = k) := fun he => h1 he.symm
  have g2 : ¬("revision_number" = k) := fun he => h2 he.symm
  have g3 : ¬("updated_at" = k) := fun he => h3 he.symm
  simp [Resource.to_dict, dget, g1, g2, g3]

theorem getChangedFields_eq_nil {e r : Resource}
    (hid : r.id = e.id) (hextra : r.extra = e.extra) :
    getChangedFields (some e) r = [] := by
  apply List.eq_nil_iff_forall_not_mem.mpr
  intro k hk
  rw [mem_getChangedFields_some] at hk
  obtain ⟨hkeys, hall, hrev, hupd⟩ := hk
  by_cases hkid : k = "id"
  · refine hall ("id", Value.vStr e.id) (List.mem_cons_self _ _) ?_ hkid.symm
    have : dget r.to_dict "id" = some (Value.vStr r.id) := by
      simp [Resource.to_dict, dget]
    rw [pyGet_eq_of_dget this, hid]
  · simp only [Resource.to_dict, List.map_cons, List.mem_cons] at hkeys
    rcases hkeys with h | h | h | h
    · exact hkid h
    · exact hrev h
    · exact hupd h
    · have hkex : k ∈ r.extra.map Prod.fst := h
      have hex : ∃ v, dget r.extra k = some v := by
        rcases Option.isSome_iff_exists.mp (dget_isSome_iff.mpr hkex) with ⟨v, hv⟩
        exact ⟨v, hv⟩
      obtain ⟨v, hv⟩ := hex
      have hvd : dget r.to_dict k = some v := by
        rw [dget_to_dict_extra hkid (fun he => hrev he) (fun he => hupd he)]
        exact hv
      have hmem : (k, v) ∈ e.to_dict := by
        have : (k, v) ∈ e.extra := mem_of_dget_eq_some (hextra ▸ hv)
        simp [Resource.to_dict]
        right
        right
        right
        exact this
      exact hall (k, v) hmem (pyGet_eq_of_dget hvd).symm rfl

theorem applyUpdates_cons (c : Cache) (u : String × Resource)
    (us : List (String × Resource)) :
    c.applyUpdates (u :: us) =
      (match c.record_resource_update u.1 u.2 with
        | .ok (c', _) => c'
        | .error _ => c).applyUpdates us := rfl

theorem dead_of_delete {c : Cache} {t i : String} {c₁ : Cache}
    {n : DeleteNotification}
    (h : c.record_resource_delete t i = .ok (c₁, n)) : c₁.Dead t i := by
  obtain ⟨s, tc, hd, hmem, hc, hc', hn⟩ := delete_ok_inv h
  subst hc'
  constructor
  · exact ⟨sadd s i, dget_dinsert_self _ _ _, mem_sadd.mpr (Or.inr rfl)⟩
  · intro tc'' htc''
    rw [dget_dinsert_self] at htc''
    cases htc''
    exact dget_dpop_self _ _

theorem dead_update {c : Cache} {t i : String} (hd : c.Dead t i)
    {t' : String} {r : Resource} {c' : Cache} {out : Option UpdateNotification}
    (h : c.record_resource_update t' r = .ok (c', out)) : c'.Dead t i := by
  rcases update_ok_inv h with ⟨_, hc, _⟩ | ⟨hs, tc, htc, hc⟩
  · rwa [hc]
  · subst hc
    refine ⟨hd.1, ?_⟩
    intro tc'' htc''
    by_cases ht : t' = t
    · subst ht
      rw [dget_dinsert_self] at htc''
      cases htc''
      obtain ⟨s', hds', hnotin, _⟩ := isStale_false_inv hs
      obtain ⟨s, hds, hin⟩ := hd.1
      rw [hds] at hds'
      cases hds'
      have hne : i ≠ r.id := by
        intro he
        exact hnotin (he ▸ hin)
      rw [dget_dinsert_ne _ _ hne]
      exact hd.2 tc (typeCache_ok_iff.mp htc).2
    · rw [dget_dinsert_ne _ _ (fun he => ht he.symm)] at htc''
      exact hd.2 tc'' htc''

theorem dead_applyUpdates {c : Cache} {t i : String} (hd : c.Dead t i)
    (us : List (String × Resource)) : (c.applyUpdates us).Dead t i := by
  induction us generalizing c with
  | nil => exact hd
  | cons u rest ih =>
      rw [applyUpdates_cons]
      cases h : c.record_resource_update u.1 u.2 with
      | error e => exact ih hd
      | ok p =>
          cases p with
          | mk c' out => exact ih (dead_update hd h)

theorem init_trackedKeys (types : List String) :
    (Cache.init types).TrackedKeys := by
  constructor
  · intro t
    simp only [Cache.init, dget_map_const]
    by_cases h : t ∈ types <;> simp [h]
  · intro t
    simp only [Cache.init, dget_map_const]
    by_cases h : t ∈ types <;> simp [h]

theorem trackedKeys_dinsert_existing {α : Type} {d : List (String × α)}
    {t : String} {v : α} (hsome : (dget d t).isSome)
    (p : String → Prop) (hiff : ∀ t₀, (dget d t₀).isSome ↔ p t₀) (hp : p t) :
    ∀ t₀, (dget (dinsert d t v) t₀).isSome ↔ p t₀ := by
  intro t₀
  rw [isSome_dget_dinsert, hiff]
  constructor
  · rintro (h | rfl)
    · exact h
    · exact hp
  · exact Or.inl

theorem reachable_trackedKeys {c : Cache} (h : Reachable c) : c.TrackedKeys := by
  induction h with
  | init types => exact init_trackedKeys types
  | bulk c t r c' hr hstep ih =>
      obtain ⟨tc, hmem, htc, hc'⟩ := bulk_put_ok_inv hstep
      subst hc'
      exact ⟨trackedKeys_dinsert_existing (by rw [htc]; rfl) _ ih.1 hmem, ih.2⟩
  | update c t r c' out hr hstep ih =>
      rcases update_ok_inv hstep with ⟨_, hc, _⟩ | ⟨_, tc, htc, hc⟩
      · rwa [hc]
      · subst hc
        obtain ⟨hmem, htc'⟩ := typeCache_ok_iff.mp htc
        exact ⟨trackedKeys_dinsert_existing (by rw [htc']; rfl) _ ih.1 hmem, ih.2⟩
  | delete c t i c' n hr hstep ih =>
      obtain ⟨s, tc, hd, hmem, htc, hc', hn⟩ := delete_ok_inv hstep
      subst hc'
      refine ⟨trackedKeys_dinsert_existing (by rw [htc]; rfl) _ ih.1 hmem,
        trackedKeys_dinsert_existing (by rw [hd]; rfl) _ ih.2 hmem⟩

theorem getAt_eq_some_iff {c : Cache} {t i : String} {r : Resource} :
    c.getAt t i = some r ↔
      ∃ tc, dget c.cache_by_type_and_id t = some tc ∧ dget tc i = some r := by
  simp [Cache.getAt, Option.bind_eq_some]

theorem disjoint_init (types : List String) :
    (Cache.init types).TombLiveDisjoint := by
  intro t s tc i hd htc hi
  rw [Cache.init] at hd
  simp only [dget_map_const] at hd
  by_cases h : t ∈ types
  · rw [if_pos h] at hd
    cases hd
    simp at hi
  · rw [if_neg h] at hd
    exact absurd hd (by simp)

theorem disjoint_update {c : Cache} (h : c.TombLiveDisjoint)
    {t : String} {r : Resource} {c' : Cache} {out : Option UpdateNotification}
    (hstep : c.record_resource_update t r = .ok (c', out)) :
    c'.TombLiveDisjoint := by
  rcases update_ok_inv hstep with ⟨_, hc, _⟩ | ⟨hs, tc, htc, hc⟩
  · rwa [hc]
  · subst hc
    intro t₀ s₀ tc₀ i hd₀ htc₀ hi₀
    by_cases ht : t = t₀
    · subst ht
      rw [dget_dinsert_self] at htc₀
      cases htc₀
      obtain ⟨s', hds', hnotin, _⟩ := isStale_false_inv hs
      rw [hds'] at hd₀
      cases hd₀
      by_cases hir : i = r.id
      · exact absurd (hir ▸ hi₀) hnotin
      · rw [dget_dinsert_ne _ _ hir]
        exact h t _ tc i hds' (typeCache_ok_iff.mp htc).2 hi₀
    · rw [dget_dinsert_ne _ _ (fun he => ht he.symm)] at htc₀
      exact h t₀ s₀ tc₀ i hd₀ htc₀ hi₀

theorem disjoint_delete {c : Cache} (h : c.TombLiveDisjoint)
    {t i : String} {c' : Cache} {n : DeleteNotification}
    (hstep : c.record_resource_delete t i = .ok (c', n)) :
    c'.TombLiveDisjoint := by
  obtain ⟨s, tc, hd, hmem, htc, hc', hn⟩ := delete_ok_inv hstep
  subst hc'
  intro t₀ s₀ tc₀ i₀ hd₀ htc₀ hi₀
  by_cases ht : t = t₀
  · subst ht
    rw [dget_dinsert_self] at hd₀ htc₀
    cases hd₀
    cases htc₀
    by_cases hii : i₀ = i
    · rw [hii]
      exact dget_dpop_self _ _
    · rw [dget_dpop_ne _ hii]
      rcases mem_sadd.mp hi₀ with hi₀ | hi₀
      · exact h t s tc i₀ hd htc hi₀
      · exact absurd hi₀ hii
  · rw [dget_dinsert_ne _ _ (fun he => ht he.symm)] at hd₀ htc₀
    exact h t₀ s₀ tc₀ i₀ hd₀ htc₀ hi₀

theorem reachableNoBulk_disjoint {c : Cache} (h : ReachableNoBulk c) :
    c.TombLiveDisjoint := by
  induction h with
  | init types => exact disjoint_init types
  | update c t r c' out hr hstep ih => exact disjoint_update ih hstep
  | delete c t i c' n hr hstep ih => exact disjoint_delete ih hstep

/-! ## The claims -/

/-- C1: Tombstone finality: once `record_resource_delete(type, id)` has been
called, every subsequent sequence of `record_resource_update` calls (for any
resources and revision numbers, including ones with `resource.id == id`)
leaves `get_resource_by_id(type, id)` absent — the id is never re-inserted
into the live mapping. -/
theorem tombstone_finality (c : Cache) (t i : String) (c₁ : Cache)
    (n : DeleteNotification)
    (hdel : c.record_resource_delete t i = .ok (c₁, n))
    (us : List (String × Resource)) (res : Option Resource)
    (hget : (c₁.applyUpdates us).get_resource_by_id t i = .ok res) :
    res = none := by
  have hd : (c₁.applyUpdates us).Dead t i :=
    dead_applyUpdates (dead_of_delete hdel) us
  rw [get_run] at hget
  split at hget
  · exact absurd hget (by simp)
  next tc htc =>
    simp only [Except.ok.injEq] at hget
    rw [← hget]
    exact hd.2 tc (typeCache_ok_iff.mp htc).2

theorem tombstone_finality_witness :
    scenC1.record_resource_delete "port" "a" =
      .ok (cDel, { rtype := "port", existing := some (scenR 5 "x"),
                   resource_id := "a" }) ∧
    (cDel.applyUpdates [("port", scenR 9 "z")]).get_resource_by_id "port" "a" =
      .ok none ∧
    (none : Option Resource) = none :=
  ⟨by decide, by decide,
   tombstone_finality scenC1 "port" "a" cDel
     { rtype := "port", existing := some (scenR 5 "x"), resource_id := "a" }
     (by decide) [("port", scenR 9 "z")] none (by decide)⟩

/-- C2: Revision monotonicity: across any single `record_resource_update`
call (and hence any sequence of them), the revision number stored for any
live `(type, id)` never decreases. -/
theorem revision_monotonic (c : Cache) (t : String) (r : Resource) (c' : Cache)
    (out : Option UpdateNotification)
    (h : c.record_resource_update t r = .ok (c', out))
    (t₀ i₀ : String) (old new : Resource)
    (hold : c.getAt t₀ i₀ = some old) (hnew : c'.getAt t₀ i₀ = some new) :
    old.revision_number ≤ new.revision_number := by
  rcases update_ok_inv h with ⟨_, hc, _⟩ | ⟨hs, tc, htc, hc⟩
  · subst hc
    rw [hold] at hnew
    cases hnew
    exact le_refl _
  · subst hc
    obtain ⟨tc₀, htc₀, hold₀⟩ := getAt_eq_some_iff.mp hold
    obtain ⟨tc₁, htc₁, hnew₁⟩ := getAt_eq_some_iff.mp hnew
    by_cases ht : t = t₀
    · subst ht
      rw [show Cache.cache_by_type_and_id { c with
            cache_by_type_and_id :=
              dinsert c.cache_by_type_and_id t (dinsert tc r.id r) } =
          dinsert c.cache_by_type_and_id t (dinsert tc r.id r) from rfl,
        dget_dinsert_self] at htc₁
      cases htc₁
      obtain ⟨hmem, htcc⟩ := typeCache_ok_iff.mp htc
      rw [htcc] at htc₀
      cases htc₀
      by_cases hi : i₀ = r.id
      · subst hi
        rw [dget_dinsert_self] at hnew₁
        cases hnew₁
        obtain ⟨s, _, _, tc', htc', hle⟩ := isStale_false_inv hs
        rw [htc] at htc'
        injection htc' with hh
        subst hh
        exact hle old hold₀
      · rw [dget_dinsert_ne _ _ hi, hold₀] at hnew₁
        cases hnew₁
        exact le_refl _
    · rw [show Cache.cache_by_type_and_id { c with
            cache_by_type_and_id :=
              dinsert c.cache_by_type_and_id t (dinsert tc r.id r) } =
          dinsert c.cache_by_type_and_id t (dinsert tc r.id r) from rfl,
        dget_dinsert_ne _ _ (fun he => ht he.symm), htc₀] at htc₁
      cases htc₁
      rw [hold₀] at hnew₁
      cases hnew₁
      exact le_refl _

theorem revision_monotonic_witness :
    scenC1.record_resource_update "port" (scenR 7 "y") =
      .ok (scenC2, some { rtype := "port", changed_fields := ["name"],
                          existing := some (scenR 5 "x"),
                          updated := scenR 7 "y", resource_id := "a" }) ∧
    scenC1.getAt "port" "a" = some (scenR 5 "x") ∧
    scenC2.getAt "port" "a" = some (scenR 7 "y") ∧
    (scenR 5 "x").revision_number ≤ (scenR 7 "y").revision_number :=
  ⟨by decide, by decide, by decide,
   revision_monotonic scenC1 "port" (scenR 7 "y") scenC2
     (some { rtype := "port", changed_fields := ["name"],
             existing := some (scenR 5 "x"), updated := scenR 7 "y",
             resource_id := "a" })
     (by decide) "port" "a" (scenR 5 "x") (scenR 7 "y") (by decide) (by decide)⟩

/-- C10: Atomicity of stale rejection: whenever `record_resource_update`
discards an incoming resource as stale, every type's live mapping and every
type's tombstone set are left exactly unchanged and no local notification is
emitted. -/
theorem stale_update_frame (c : Cache) (t : String) (r : Resource)
    (h : c.isStale t r = .ok true) :
    c.record_resource_update t r = .ok (c, none) := by
  rw [update_run, h]

theorem stale_update_frame_witness :
    scenC1.isStale "port" (scenR 3 "w") = .ok true ∧
    scenC1.record_resource_update "port" (scenR 3 "w") = .ok (scenC1, none) :=
  ⟨by decide, stale_update_frame scenC1 "port" (scenR 3 "w") (by decide)⟩

/-- C3: Staleness rule and unordered-delivery tolerance: `_is_stale` answers
true exactly when the id is tombstoned or a live entry has a strictly greater
revision number (an equal incoming revision is accepted); and applying updates
with revisions [5, 3, 7] in that order yields final stored revision 7, the
revision-5 call (a create) and the revision-7 call (an update) each emit a
local notification, and the revision-3 call is discarded as stale purely by
revision comparison (its type's tombstone set is empty). -/
theorem stale_iff_and_unordered_tolerance :
    (∀ (c : Cache) (t : String) (r : Resource) (b : Bool),
      c.isStale t r = .ok b →
      (b = true ↔
        (∃ s, dget c.deleted_ids_by_type t = some s ∧ r.id ∈ s) ∨
        (∃ tc e, dget c.cache_by_type_and_id t = some tc ∧
          dget tc r.id = some e ∧ r.revision_number < e.revision_number))) ∧
    scenC0.record_resource_update "port" (scenR 5 "x") =
      .ok (scenC1, some { rtype := "port", changed_fields := ["id", "name"],
                          existing := none, updated := scenR 5 "x",
                          resource_id := "a" }) ∧
    scenC1.record_resource_update "port" (scenR 3 "w") = .ok (scenC1, none) ∧
    scenC1.isStale "port" (scenR 3 "w") = .ok true ∧
    dget scenC1.deleted_ids_by_type "port" = some [] ∧
    scenC1.record_resource_update "port" (scenR 7 "y") =
      .ok (scenC2, some { rtype := "port", changed_fields := ["name"],
                          existing := some (scenR 5 "x"),
                          updated := scenR 7 "y", resource_id := "a" }) ∧
    scenC2.getAt "port" "a" = some (scenR 7 "y") := by
  refine ⟨?_, by decide, by decide, by decide, by decide, by decide, by decide⟩
  intro c t r b h
  rw [isStale_run] at h
  split at h
  · exact absurd h (by simp)
  next s heq =>
    split at h
    next hm =>
      simp only [Except.ok.injEq] at h
      subst h
      exact iff_of_true rfl (Or.inl ⟨s, heq, hm⟩)
    next hm =>
      split at h
      · exact absurd h (by simp)
      next tc htc =>
        obtain ⟨hmem, htcc⟩ := typeCache_ok_iff.mp htc
        split at h
        next e he =>
          simp only [Except.ok.injEq] at h
          subst h
          rw [decide_eq_true_eq]
          constructor
          · intro hb
            exact Or.inr ⟨tc, e, htcc, he, hb⟩
          · rintro (⟨s', hs', hin⟩ | ⟨tc', e', htc', he', hlt⟩)
            · rw [heq] at hs'
              injection hs' with hh
              subst hh
              exact absurd hin hm
            · rw [htcc] at htc'
              injection htc' with hh
              subst hh
              rw [he] at he'
              injection he' with hh
              subst hh
              exact hlt
        next he =>
          simp only [Except.ok.injEq] at h
          subst h
          constructor
          · intro hb
            exact Bool.noConfusion hb
          · rintro (⟨s', hs', hin⟩ | ⟨tc', e', htc', he', hlt⟩)
            · rw [heq] at hs'
              injection hs' with hh
              subst hh
              exact absurd hin hm
            · rw [htcc] at htc'
              injection htc' with hh
              subst hh
              rw [he] at he'
              exact absurd he' (by simp)

theorem stale_iff_witness :
    scenC1.isStale "port" (scenR 3 "w") = .ok true ∧
    (true = true ↔
      (∃ s, dget scenC1.deleted_ids_by_type "port" = some s ∧
        (scenR 3 "w").id ∈ s) ∨
      (∃ tc e, dget scenC1.cache_by_type_and_id "port" = some tc ∧
        dget tc (scenR 3 "w").id = some e ∧
        (scenR 3 "w").revision_number < e.revision_number)) :=
  ⟨by decide,
   stale_iff_and_unordered_tolerance.1 scenC1 "port" (scenR 3 "w") true
     (by decide)⟩

/-- C4: Changed-field computation: with no existing entry the changed-field
set is every incoming field except `revision_number`/`updated_at`, exactly as
the spec diff; with an existing entry over the same field-name set (the spec
models resources of one type with one enumerable field set) the computed set
contains exactly the field names whose values differ, excluding
`revision_number` and `updated_at`; and on the spec example the emitted set is
exactly `{status}`. -/
theorem changed_fields_correct :
    (∀ r : Resource, getChangedFields none r = specChangedFields none r) ∧
    (∀ o r : Resource,
      (∀ k ∈ o.to_dict.map Prod.fst, k ∈ r.to_dict.map Prod.fst) →
      (∀ k ∈ r.to_dict.map Prod.fst, k ∈ o.to_dict.map Prod.fst) →
      (o.to_dict.map Prod.fst).Nodup →
      ∀ k, (k ∈ getChangedFields (some o) r ↔ k ∈ specChangedFields (some o) r)) ∧
    getChangedFields (some exOld) exNew = ["status"] := by
  refine ⟨fun r => rfl, ?_, by decide⟩
  intro o r hko hkr hnd k
  rw [mem_getChangedFields_some, mem_specChangedFields_some]
  constructor
  · rintro ⟨hkR, hall, hrev, hupd⟩
    refine ⟨Or.inr hkR, ?_, hrev, hupd⟩
    have hkO : k ∈ o.to_dict.map Prod.fst := hkr k hkR
    obtain ⟨v, hv⟩ := Option.isSome_iff_exists.mp (dget_isSome_iff.mpr hkO)
    obtain ⟨w, hw⟩ := Option.isSome_iff_exists.mp (dget_isSome_iff.mpr hkR)
    have hvw : v ≠ w := by
      intro he
      exact hall (k, v) (mem_of_dget_eq_some hv)
        (by rw [pyGet_eq_of_dget hw]; exact he) rfl
    rw [hv, hw]
    intro hc
    injection hc with hh
    exact hvw hh
  · rintro ⟨hk, hne, hrev, hupd⟩
    have hkR : k ∈ r.to_dict.map Prod.fst := by
      rcases hk with hk | hk
      · exact hko k hk
      · exact hk
    refine ⟨hkR, ?_, hrev, hupd⟩
    intro kv hkv heq hkk
    obtain ⟨w, hw⟩ := Option.isSome_iff_exists.mp (dget_isSome_iff.mpr hkR)
    have hkv' : (kv.1, kv.2) ∈ o.to_dict := by
      rw [Prod.mk.eta]
      exact hkv
    have hdo : dget o.to_dict k = some kv.2 := by
      rw [← hkk]
      exact dget_eq_some_of_mem_nodup hnd hkv'
    have hvw : kv.2 = w := by
      rw [heq, hkk, pyGet_eq_of_dget hw]
    rw [hvw] at hdo
    exact hne (hdo.trans hw.symm)

theorem changed_fields_correct_witness :
    ((∀ k ∈ exOld.to_dict.map Prod.fst, k ∈ exNew.to_dict.map Prod.fst) ∧
     (∀ k ∈ exNew.to_dict.map Prod.fst, k ∈ exOld.to_dict.map Prod.fst) ∧
     (exOld.to_dict.map Prod.fst).Nodup) ∧
    ("status" ∈ getChangedFields (some exOld) exNew ↔
      "status" ∈ specChangedFields (some exOld) exNew) :=
  ⟨⟨by decide, by decide, by decide⟩,
   changed_fields_correct.2.1 exOld exNew (by decide) (by decide) (by decide)
     "status"⟩

/-- C5: No-op suppression with replace-still-occurs: a non-stale update whose
resource agrees with the existing live entry on `id` and on every
type-specific field (only `revision_number`/`updated_at` may differ) replaces
the stored entry with the incoming resource but emits no local
notification. -/
theorem noop_update_replaces_silently (c : Cache) (t : String)
    (r e : Resource) (tc : List (String × Resource))
    (htc : c.typeCache t = .ok tc) (he : dget tc r.id = some e)
    (hstale : c.isStale t r = .ok false)
    (hid : r.id = e.id) (hextra : r.extra = e.extra) :
    c.record_resource_update t r =
      .ok (({ c with
              cache_by_type_and_id :=
                dinsert c.cache_by_type_and_id t (dinsert tc r.id r) } : Cache),
           none) ∧
    Cache.getAt
      ({ c with
         cache_by_type_and_id :=
           dinsert c.cache_by_type_and_id t (dinsert tc r.id r) } : Cache)
      t r.id = some r := by
  have hnil : getChangedFields (dget tc r.id) r = [] := by
    rw [he]
    exact getChangedFields_eq_nil hid hextra
  constructor
  · simp [update_run, hstale, htc, hnil]
  · rw [getAt_eq_some_iff]
    exact ⟨dinsert tc r.id r, dget_dinsert_self _ _ _, dget_dinsert_self _ _ _⟩

theorem noop_update_witness :
    scenC1.isStale "port" (scenR 9 "x") = .ok false ∧
    scenC1.record_resource_update "port" (scenR 9 "x") = .ok (scenC1noop, none) ∧
    scenC1noop.getAt "port" "a" = some (scenR 9 "x") := by
  refine ⟨by decide, ?_, by decide⟩
  have h := (noop_update_replaces_silently scenC1 "port" (scenR 9 "x")
    (scenR 5 "x") [("a", scenR 5 "x")] (by decide) (by decide) (by decide)
    (by decide) (by decide)).1
  rw [h]
  decide

theorem delete_idem_state {c : Cache} {t i : String} {s : List String}
    {tc : List (String × Resource)}
    (hd : dget c.deleted_ids_by_type t = some s) (hmem : t ∈ c.resource_types)
    (htc : dget c.cache_by_type_and_id t = some tc)
    (hin : i ∈ s) (hlive : dget tc i = none) :
    c.record_resource_delete t i =
      .ok (c, { rtype := t, existing := none, resource_id := i }) := by
  rw [delete_run, hd,
    show c.typeCache t = .ok tc from typeCache_ok_iff.mpr ⟨hmem, htc⟩]
  show (Except.ok
      (({ c with
          deleted_ids_by_type := dinsert c.deleted_ids_by_type t (sadd s i),
          cache_by_type_and_id := dinsert c.cache_by_type_and_id t (dpop tc i)
        } : Cache),
       ({ rtype := t, existing := dget tc i,
          resource_id := i } : DeleteNotification)) :
      Except Err (Cache × DeleteNotification)) =
    .ok (c, { rtype := t, existing := none, resource_id := i })
  rw [sadd_eq_self hin, dinsert_eq_self hd, dpop_eq_self hlive,
    dinsert_eq_self htc, hlive]

/-- C6: Delete is idempotent and always applied: `record_resource_delete`
unconditionally tombstones the id, removes any live entry, and emits a
deletion notification carrying the previous snapshot (absent if the id was
not live); a second delete of the same id also succeeds and emits a
notification, its previous snapshot is absent, and the state after the two
calls equals the state after one. -/
theorem delete_idempotent (c : Cache) (t i : String) (c₁ : Cache)
    (n₁ : DeleteNotification)
    (h : c.record_resource_delete t i = .ok (c₁, n₁)) :
    (∃ s, dget c₁.deleted_ids_by_type t = some s ∧ i ∈ s) ∧
    c₁.getAt t i = none ∧
    n₁ = { rtype := t, existing := c.getAt t i, resource_id := i } ∧
    c₁.record_resource_delete t i =
      .ok (c₁, { rtype := t, existing := none, resource_id := i }) := by
  obtain ⟨s, tc, hd, hmem, htc, hc₁, hn⟩ := delete_ok_inv h
  subst hc₁
  refine ⟨⟨sadd s i, dget_dinsert_self _ _ _, mem_sadd.mpr (Or.inr rfl)⟩,
    ?_, ?_, ?_⟩
  · simp [Cache.getAt, dget_dinsert_self, dget_dpop_self]
  · rw [hn]
    have : c.getAt t i = dget tc i := by
      simp [Cache.getAt, htc]
    rw [this]
  · exact delete_idem_state (dget_dinsert_self _ _ _) hmem
      (dget_dinsert_self _ _ _) (mem_sadd.mpr (Or.inr rfl)) (dget_dpop_self _ _)

theorem delete_idempotent_witness :
    scenC1.record_resource_delete "port" "a" =
      .ok (cDel, { rtype := "port", existing := some (scenR 5 "x"),
                   resource_id := "a" }) ∧
    ((∃ s, dget cDel.deleted_ids_by_type "port" = some s ∧ "a" ∈ s) ∧
     cDel.getAt "port" "a" = none ∧
     ({ rtype := "port", existing := some (scenR 5 "x"),
        resource_id := "a" } : DeleteNotification) =
       { rtype := "port", existing := scenC1.getAt "port" "a",
         resource_id := "a" } ∧
     cDel.record_resource_delete "port" "a" =
       .ok (cDel, { rtype := "port", existing := none, resource_id := "a" })) :=
  ⟨by decide,
   delete_idempotent scenC1 "port" "a" cDel
     { rtype := "port", existing := some (scenR 5 "x"), resource_id := "a" }
     (by decide)⟩

/-- C7 counterexample: the tombstone/live disjointness claimed for every
state reachable by any sequence of the cache's operations fails once the
unconditional bulk-load insert is among them: deleting id `"a"` and then
bulk-inserting a resource with id `"a"` reaches a state where `"a"` is both
tombstoned and live. -/
theorem tomb_live_disjoint_counterexample :
    Reachable cBad ∧ ¬cBad.TombLiveDisjoint := by
  constructor
  · refine Reachable.bulk cDel "port" (scenR 1 "x") cBad ?_ (by decide)
    exact Reachable.delete (Cache.init ["port"]) "port" "a" cDel
      { rtype := "port", existing := none, resource_id := "a" }
      (Reachable.init ["port"]) (by decide)
  · intro h
    have := h "port" ["a"] [("a", scenR 1 "x")] "a" (by decide) (by decide)
      (by decide)
    exact absurd this (by decide)

/-- C7 (amended): in every state reachable from `__init__` by
`record_resource_update` and `record_resource_delete` (the push-driven
operations, excluding the unconditional bulk-load insert), no id present in a
type's tombstone set is simultaneously present in that type's live
mapping. -/
theorem tomb_live_disjoint_no_bulk (c : Cache) (h : ReachableNoBulk c) :
    c.TombLiveDisjoint := by
  induction h with
  | init types => exact disjoint_init types
  | update c t r c' out hr hstep ih => exact disjoint_update ih hstep
  | delete c t i c' n hr hstep ih => exact disjoint_delete ih hstep

theorem tomb_live_disjoint_no_bulk_witness : cDel.TombLiveDisjoint :=
  tomb_live_disjoint_no_bulk cDel
    (ReachableNoBulk.delete (Cache.init ["port"]) "port" "a" cDel
      { rtype := "port", existing := none, resource_id := "a" }
      (ReachableNoBulk.init ["port"]) (by decide))

/-- C8: UnknownType failure: in every reachable state, every store operation
addressed to an untracked type fails — `get_resource_by_id`,
`match_resources_with_func` and `get_resources` with the
`RuntimeError("Resource cache not tracking ...")` from `_type_cache`, and
`record_resource_update` / `record_resource_delete` with the `KeyError` from
the subscript on `_deleted_ids_by_type` — and `get_resource_by_id` never
errors for a tracked type. -/
theorem unknown_type_errors (c : Cache) (hr : Reachable c) :
    (∀ t, t ∉ c.resource_types → ∀ i r fs m,
      c.get_resource_by_id t i = .error Err.notTracking ∧
      c.match_resources_with_func t m = .error Err.notTracking ∧
      c.get_resources t fs = .error Err.notTracking ∧
      c.record_resource_update t r = .error Err.keyError ∧
      c.record_resource_delete t i = .error Err.keyError) ∧
    (∀ t, t ∈ c.resource_types → ∀ i, ∃ res, c.get_resource_by_id t i = .ok res) := by
  have hk := reachable_trackedKeys hr
  constructor
  · intro t ht i r fs m
    have htc : c.typeCache t = .error Err.notTracking := by
      simp [Cache.typeCache, ht]
    have hdel : dget c.deleted_ids_by_type t = none := by
      cases hdd : dget c.deleted_ids_by_type t with
      | none => rfl
      | some s => exact absurd ((hk.2 t).mp (by rw [hdd]; rfl)) ht
    refine ⟨?_, ?_, ?_, ?_, ?_⟩
    · rw [get_run, htc]
    · rw [match_run, htc]
    · rw [Cache.get_resources, match_run, htc]
    · rw [update_run, isStale_run, hdel]
    · rw [delete_run, hdel]
  · intro t ht i
    obtain ⟨tc, htc⟩ := Option.isSome_iff_exists.mp ((hk.1 t).mpr ht)
    exact ⟨dget tc i, by rw [get_run, typeCache_ok_iff.mpr ⟨ht, htc⟩]⟩

theorem unknown_type_errors_witness :
    scenC1.get_resource_by_id "network" "x" = .error Err.notTracking ∧
    scenC1.record_resource_update "network" (scenR 1 "q") = .error Err.keyError ∧
    scenC1.record_resource_delete "network" "x" = .error Err.keyError ∧
    (∃ res, scenC1.get_resource_by_id "port" "x" = .ok res) := by
  have hr : Reachable scenC1 :=
    Reachable.update (Cache.init ["port"]) "port" (scenR 5 "x") scenC1
      (some { rtype := "port", changed_fields := ["id", "name"],
              existing := none, updated := scenR 5 "x", resource_id := "a" })
      (Reachable.init ["port"]) (by decide)
  have h := unknown_type_errors scenC1 hr
  have h1 := h.1 "network" (by decide) "x" (scenR 1 "q") [] (fun _ => true)
  exact ⟨h1.1, h1.2.2.2.1, h1.2.2.2.2, h.2 "port" (by decide) "x"⟩

/-- C9: Find semantics: `match_resources_with_func` returns exactly the live
resources of the type satisfying the predicate; `get_resources` returns
exactly the live resources agreeing with every `key: value` of the filters
dict; and on a cache with `zone` fields `"A"`, `"A"`, `"B"`, filtering on
`zone == "A"` returns exactly the two `"A"` entries. -/
theorem find_semantics :
    (∀ (c : Cache) (t : String) (m : Resource → Bool) (l : List Resource),
      c.match_resources_with_func t m = .ok l →
      ∃ tc, c.typeCache t = .ok tc ∧
        ∀ r, (r ∈ l ↔ r ∈ dvalues tc ∧ m r = true)) ∧
    (∀ (c : Cache) (t : String) (fs : List (String × Value)) (l : List Resource),
      c.get_resources t fs = .ok l →
      ∃ tc, c.typeCache t = .ok tc ∧
        ∀ r, (r ∈ l ↔ r ∈ dvalues tc ∧ filtersMatch fs r = true)) ∧
    zoneCache.get_resources "net" [("zone", Value.vStr "A")] =
      .ok [zoneR "r1" "A", zoneR "r2" "A"] := by
  have key : ∀ (c : Cache) (t : String) (m : Resource → Bool) (l : List Resource),
      c.match_resources_with_func t m = .ok l →
      ∃ tc, c.typeCache t = .ok tc ∧
        ∀ r, (r ∈ l ↔ r ∈ dvalues tc ∧ m r = true) := by
    intro c t m l h
    rw [match_run] at h
    split at h
    · exact absurd h (by simp)
    next tc htc =>
      simp only [Except.ok.injEq] at h
      subst h
      refine ⟨tc, htc, ?_⟩
      intro r
      simp [List.mem_filter]
  exact ⟨key, fun c t fs l h => key c t (filtersMatch fs) l h, by decide⟩

theorem find_semantics_witness :
    zoneCache.match_resources_with_func "net"
      (filtersMatch [("zone", Value.vStr "A")]) =
      .ok [zoneR "r1" "A", zoneR "r2" "A"] ∧
    (∃ tc, zoneCache.typeCache "net" = .ok tc ∧
      ∀ r, (r ∈ [zoneR "r1" "A", zoneR "r2" "A"] ↔
        r ∈ dvalues tc ∧ filtersMatch [("zone", Value.vStr "A")] r = true)) :=
  ⟨by decide,
   find_semantics.1 zoneCache "net" (filtersMatch [("zone", Value.vStr "A")])
     [zoneR "r1" "A", zoneR "r2" "A"] (by decide)⟩
